import Mathlib

/-!
Shallow embedding of `module/research/project.py` (AzurLaneAutoScript research
module): catalog reconciliation, project-record construction, priority
post-filtering, JP detail-screen parsing and the template classifier.

Python strings are modelled as Lean `String` / `List Char`; Python integers as
`Nat` (all values involved are non-negative); Python dicts as insertion-ordered
association lists.  Fallible paths (`None` returns, raised exceptions) are
modelled with `Option`.
-/

namespace AzurLane

/-! ## Python string primitives -/

/-- Models Python `str.rstrip(chars)` at the `List Char` level: remove the
longest trailing run of characters belonging to `chars`. -/
def rstripSet (chars : List Char) (l : List Char) : List Char :=
  (l.reverse.dropWhile (fun c => chars.contains c)).reverse

/-- Models Python `str.lstrip(chars)` at the `List Char` level. -/
def lstripSet (chars : List Char) (l : List Char) : List Char :=
  l.dropWhile (fun c => chars.contains c)

/-- Models Python `str.strip(chars)`: strip the character set from both ends. -/
def stripSet (chars : List Char) (l : List Char) : List Char :=
  rstripSet chars (lstripSet chars l)

/-- Models Python `str.split(sep)` for a single-character separator, at the
`List Char` level.  `splitL sep "" = [""]`, and separators at the ends or
adjacent separators produce empty segments, exactly as in Python. -/
def splitL (sep : Char) : List Char → List (List Char)
  | [] => [[]]
  | c :: cs =>
    if c = sep then [] :: splitL sep cs
    else
      match splitL sep cs with
      | [] => [[c]]
      | h :: t => (c :: h) :: t

/-- Models Python `str.rstrip(chars)` on `String`. -/
def pyRstrip (s : String) (chars : List Char) : String :=
  (rstripSet chars s.toList).asString

/-- Models Python `str.upper()` (ASCII inputs only, which is all this code
feeds it). -/
def pyUpper (s : String) : String :=
  (s.toList.map Char.toUpper).asString

/-! ## Duration formatting (`str(seconds / 3600).rstrip('.0')`)

`ResearchProject.__init__` (project.py:107) and
`ResearchProjectJp.get_research_duration_jp` (project.py:341) render a
duration as `str(seconds / 3600).rstrip('.0')`.  Every catalog research
duration is a whole number of half hours, and for `seconds` a multiple of
1800 the Python float `seconds / 3600` is exactly representable, so
`str(...)` prints the exact value with exactly one fractional digit:
`"<k>.0"` for whole hours and `"<k>.5"` for half hours.  The model below is
exact on such inputs (the only ones the claims mention).

Note that `.rstrip('.0')` strips the trailing *character set* `{'.', '0'}`,
not the literal suffix `".0"`. -/

/-- `str(float)` for a value of `n` half-hours (`n = seconds / 1800`):
`"<n/2>.0"` when `n` is even, `"<n/2>.5"` when `n` is odd. -/
def floatReprHalfHours (n : Nat) : List Char :=
  (Nat.repr (n / 2)).toList ++ (if n % 2 = 0 then ['.', '0'] else ['.', '5'])

/-- Models `str(seconds / 3600).rstrip('.0')` for `seconds` a multiple of
half an hour. -/
def durationString (seconds : Nat) : String :=
  (rstripSet ['.', '0'] (floatReprHalfHours (seconds / 1800))).asString

/-! ### Lemmas about stripping and decimal representations -/

theorem dropWhile_cons_of_neg {p : α → Bool} {x : α} {xs : List α}
    (h : ¬p x) : (x :: xs).dropWhile p = x :: xs := by
  simp [List.dropWhile, h]

/-- `rstripSet` removes an entire trailing run drawn from the set and then
stops at the first character outside it. -/
theorem rstripSet_append_of_last_notMem {chars : List Char} {l suffix : List Char}
    (hsuf : ∀ c ∈ suffix, chars.contains c = true)
    (hlast : ∀ c, l.getLast? = some c → chars.contains c = false) :
    rstripSet chars (l ++ suffix) = l := by
  unfold rstripSet
  rw [List.reverse_append]
  have hdrop : ∀ (r : List Char), (∀ c ∈ r, chars.contains c = true) →
      (r ++ l.reverse).dropWhile (fun c => chars.contains c) =
        l.reverse.dropWhile (fun c => chars.contains c) := by
    intro r hr
    induction r with
    | nil => simp
    | cons x xs ih =>
      have hx : chars.contains x = true := hr x (by simp)
      simp only [List.cons_append, List.dropWhile_cons, hx]
      exact ih (fun c hc => hr c (by simp [hc]))
  rw [hdrop suffix.reverse (fun c hc => hsuf c (List.mem_reverse.mp hc))]
  cases hrev : l.reverse with
  | nil => simp [List.reverse_eq_nil_iff.mp hrev]
  | cons x xs =>
    have hx : l.getLast? = some x := by
      rw [← List.head?_reverse, hrev]; rfl
    have hxc : chars.contains x = false := hlast x hx
    rw [dropWhile_cons_of_neg (by simpa using hxc), ← hrev, List.reverse_reverse]

/-- Every natural number's decimal representation ends in the digit character
of its last digit: `(Nat.toDigits 10 n).getLast? = some (Nat.digitChar (n % 10))`. -/
theorem toDigitsCore_eq_append (b : Nat) :
    ∀ (fuel n : Nat) (ds : List Char), ∃ l, Nat.toDigitsCore b fuel n ds = l ++ ds := by
  intro fuel
  induction fuel with
  | zero => intro n ds; exact ⟨[], rfl⟩
  | succ fuel ih =>
    intro n ds
    unfold Nat.toDigitsCore
    by_cases h : n / b = 0
    · exact ⟨[Nat.digitChar (n % b)], by simp [h]⟩
    · simp only [h, if_false]
      obtain ⟨l, hl⟩ := ih (n / b) (Nat.digitChar (n % b) :: ds)
      exact ⟨l ++ [Nat.digitChar (n % b)], by rw [hl]; simp⟩

theorem toDigits_getLast (n : Nat) :
    (Nat.toDigits 10 n).getLast? = some (Nat.digitChar (n % 10)) := by
  unfold Nat.toDigits Nat.toDigitsCore
  by_cases h : n / 10 = 0
  · simp [h]
  · simp only [h, if_false]
    obtain ⟨l, hl⟩ := toDigitsCore_eq_append 10 n (n / 10) [Nat.digitChar (n % 10)]
    rw [hl, List.getLast?_concat]

theorem repr_getLast (n : Nat) :
    (Nat.repr n).toList.getLast? = some (Nat.digitChar (n % 10)) := by
  show (Nat.toDigits 10 n).asString.toList.getLast? = _
  rw [List.toList_asString]
  exact toDigits_getLast n

/-- When the hour count is not a multiple of 10, its decimal representation
does not end in a character of the stripped set `{'.', '0'}`. -/
theorem repr_last_not_strip (h : Nat) (hmod : h % 10 ≠ 0) :
    ∀ c, (Nat.repr h).toList.getLast? = some c → (['.', '0'] : List Char).contains c = false := by
  intro c hc
  rw [repr_getLast] at hc
  have hceq : c = Nat.digitChar (h % 10) := by
    injection hc with h1; exact h1.symm
  subst hceq
  have h1 : 1 ≤ h % 10 := by omega
  have h2 : h % 10 < 10 := by omega
  interval_cases hm : h % 10 <;> decide

/-- For whole-hour durations whose hour count is not a multiple of 10, the
rendered duration string is exactly the decimal representation of the hour
count. -/
theorem durationString_whole_hours (h : Nat) (hmod : h % 10 ≠ 0) :
    durationString (3600 * h) = Nat.repr h := by
  unfold durationString floatReprHalfHours
  have h1 : 3600 * h / 1800 = 2 * h := by omega
  have h2 : 2 * h % 2 = 0 := by omega
  have h3 : 2 * h / 2 = h := by omega
  rw [h1, h2, h3]
  simp only [if_pos rfl]
  rw [rstripSet_append_of_last_notMem (by decide) (repr_last_not_strip h hmod)]
  exact String.asString_toList _

/-! ## Regex-style substring search

`re.search` with an alternation of fixed literal words, as used by
`REGEX_INPUT = re.compile('(coin|cube|part)')` and `REGEX_SHIP` (list of 17
ship names): scan left to right; at the first position where some
alternative matches, return the first alternative (in pattern order) that
matches there. -/

/-- `leadsWith pat l` is true when `pat` is an initial segment of `l`
(models matching a literal regex alternative at the current position). -/
def leadsWith : List Char → List Char → Bool
  | [], _ => true
  | _ :: _, [] => false
  | p :: ps, c :: cs => p == c && leadsWith ps cs

/-- Leftmost-first matching of a list of literal alternatives. -/
def findFirstOf (alts : List (List Char)) : List Char → Option (List Char)
  | [] => none
  | c :: cs =>
    match alts.find? (fun a => leadsWith a (c :: cs)) with
    | some a => some a
    | none => findFirstOf alts cs

/-- Models `item['name'].replace(' ', '').lower()` (project.py:109, 113). -/
def pyNormalize (s : String) : String :=
  ((s.toList.filter (fun c => c != ' ')).map Char.toLower).asString

/-! ## Data model -/

/-- One entry of `LIST_RESEARCH_PROJECT` (module/research/project_data.py,
outside the embedded file): the fields `ResearchProject.__init__` reads.
`input` and `output` are the `name` fields of the resource/reward item
dictionaries. -/
structure ResearchRow where
  series : Nat
  name : String
  time : Nat
  input : List String
  output : List String
  deriving DecidableEq, Repr

/-- The attribute record built by `ResearchProject.__init__`
(project.py:84-122). -/
structure ResearchProject where
  valid : Bool
  name : String
  series : String
  genre : String
  duration : String
  ship : String
  ship_rarity : String
  need_coin : Bool
  need_cube : Bool
  need_part : Bool
  deriving DecidableEq, Repr

/-- The three `RESEARCH_USE_*` configuration flags read by
`ResearchSelector._research_check_filter` (project.py:232-234). -/
structure ResearchConfig where
  use_cube : Bool
  use_coin : Bool
  use_part : Bool
  deriving DecidableEq, Repr

/-- An element of a priority list: a record index (Python `int`) or an
instruction token (Python `str`, e.g. `'reset'`). -/
inductive PEntry where
  | idx (i : Nat)
  | tok (s : String)
  deriving DecidableEq, Repr

/-! ## `ResearchProject.check_name` (project.py:130-145) -/

/-- The digit correction applied to one character of the middle segment:
`D` and `O` become `0`, `S` becomes `5`. -/
def fixChar (c : Char) : Char :=
  if c = 'D' then '0' else if c = 'O' then '0' else if c = 'S' then '5' else c

/-- The digit correction applied to the middle segment:
`number.replace('D', '0').replace('O', '0').replace('S', '5')`.  Each
pattern is a single character, so the substring replaces act characterwise. -/
def fixDigits (l : List Char) : List Char :=
  l.map fixChar

/-- `ResearchProject.check_name` at the `List Char` level:
strip `'-'` from both ends; if the result splits into exactly three
`'-'`-separated segments (`len(parts) == 3`), apply `fixDigits` to the
middle segment and rejoin with `'-'`; otherwise return the stripped name. -/
def checkNameL (l : List Char) : List Char :=
  let name := stripSet ['-'] l
  let parts := splitL '-' name
  if parts.length = 3 then
    parts.getD 0 [] ++ '-' :: fixDigits (parts.getD 1 []) ++ '-' :: parts.getD 2 []
  else name

/-- `ResearchProject.check_name` (project.py:130-145). -/
def check_name (s : String) : String :=
  (checkNameL s.toList).asString

/-! ## `ResearchProject.get_data` (project.py:147-172)

The generator yields, in order: exact matches on `(series, name)`; if the
name starts with `'D'`, exact matches on the shining-card substitution
`'C' + name[1:]`; and loose matches with the character set `'MIRFUL-'`
right-stripped from both the catalog name and the query name.  Every layer
requires `data['series'] == series`.  The caller commits to the first
yielded entry only; we model the generator as the eager concatenation of
the three layers. -/

def pyRstripSuffixSet (s : String) : String :=
  (rstripSet ['M', 'I', 'R', 'F', 'U', 'L', '-'] s.toList).asString

def layerExact (catalog : List ResearchRow) (name : String) (series : Nat) : List ResearchRow :=
  catalog.filter (fun d => d.series == series && d.name == name)

/-- `'C' + name[1:]`, the shining-card substitution (project.py:162). -/
def shinySubstitute (name : String) : String :=
  ('C' :: name.toList.drop 1).asString

def layerShiny (catalog : List ResearchRow) (name : String) (series : Nat) : List ResearchRow :=
  if name.toList.head? = some 'D' then
    catalog.filter (fun d => d.series == series && d.name == shinySubstitute name)
  else []

def layerLoose (catalog : List ResearchRow) (name : String) (series : Nat) : List ResearchRow :=
  catalog.filter (fun d => d.series == series && pyRstripSuffixSet d.name == pyRstripSuffixSet name)

def get_data (catalog : List ResearchRow) (name : String) (series : Nat) : List ResearchRow :=
  layerExact catalog name series ++ layerShiny catalog name series ++ layerLoose catalog name series

/-! ## `ResearchProject.__init__` (project.py:84-122) -/

/-- `re.search(REGEX_INPUT, item['name'].replace(' ', '').lower())`, returning
the matched group (project.py:109-111). -/
def searchInput (item : String) : Option String :=
  (findFirstOf ["coin".toList, "cube".toList, "part".toList] (pyNormalize item).toList).map
    List.asString

/-- The 17 ship names of `REGEX_SHIP` (project.py:79-80), in pattern order. -/
def shipAlternatives : List String :=
  ["neptune", "monarch", "ibuki", "izumo", "roon", "saintlouis", "seattle", "georgia",
   "kitakaze", "azuma", "friedrich", "gascogne", "champagne", "cheshire", "drake", "mainz",
   "odin"]

/-- `re.search(REGEX_SHIP, item['name'].replace(' ', '').lower())`, returning
the matched group (project.py:113-115). -/
def searchShip (item : String) : Option String :=
  (findFirstOf (shipAlternatives.map String.toList) (pyNormalize item).toList).map List.asString

/-- `DR_SHIP` (project.py:82). -/
def DR_SHIP : List String := ["azuma", "friedrich", "drake"]

/-- The committed record name: `self.name` is set to `check_name(name)` before
matching and is overwritten with the substituted name exactly when the first
yielded entry comes from the shining-card layer (the generator executes
`self.name = name1` just before that yield; the construction loop `break`s
after the first entry, so later yields never run). -/
def committedName (catalog : List ResearchRow) (name0 : String) (series : Nat) : String :=
  if (layerExact catalog name0 series).isEmpty then
    if (layerShiny catalog name0 series).isEmpty then name0
    else shinySubstitute name0
  else name0

/-- `ResearchProject.__init__` (project.py:84-122).  The construction never
raises: an unmatched name leaves the defaults in place (`duration = '24'`,
empty genre/ship, flags false) and sets `valid = False`.  On a match, the
loop body runs once for the first yielded entry and `break`s.
`genre = data['name'][0]` is the first character of the catalog name
(catalog names are non-empty; `List.take 1` models the single-character
string `name[0]`). -/
def research_project_init (catalog : List ResearchRow) (name : String) (series : Nat) :
    ResearchProject :=
  let name0 := check_name name
  match (get_data catalog name0 series).head? with
  | none =>
    { valid := false, name := name0, series := "S" ++ Nat.repr series, genre := "",
      duration := "24", ship := "", ship_rarity := "",
      need_coin := false, need_cube := false, need_part := false }
  | some d =>
    let ship := ((d.output.filterMap searchShip).head?).getD ""
    { valid := true
      name := committedName catalog name0 series
      series := "S" ++ Nat.repr series
      genre := (d.name.toList.take 1).asString
      duration := durationString d.time
      ship := ship
      ship_rarity := if ship == "" then "" else if DR_SHIP.contains ship then "dr" else "pry"
      need_coin := d.input.any (fun it => searchInput it == some "coin")
      need_cube := d.input.any (fun it => searchInput it == some "cube")
      need_part := d.input.any (fun it => searchInput it == some "part") }

/-! ## `get_research_series` (project.py:34-59)

The peak detection itself (`scipy.signal.find_peaks` over the column means
of the cropped, resized, grayscaled region) is external signal processing;
what the embedded code decides is lines 52-57: a peak count in `{1, 2, 3}`
is reported as the series, anything else is reported as `0` (with a logged
warning). -/

def research_series_of_peaks (peakCount : Nat) : Nat :=
  if 1 ≤ peakCount ∧ peakCount ≤ 3 then peakCount else 0

/-! ## `ResearchSelector._research_check_filter` (project.py:216-245)

A single pass over the priority list.  String tokens are appended
unconditionally.  For an index entry, `self.projects[index]` is looked up
(`none` models the `IndexError` Python would raise on an out-of-range
index; the upstream filter collaborator only produces in-range, zero-based
indices) and the entry is kept only when none of the three `continue`
guards fires: the record is invalid; a needed resource is disabled; or the
genre is `'B'`, or `'E'` with duration other than `'6'` (case-insensitive
genre comparison, `str(...)` around the already-string duration). -/

/-- The conjunction of the three `continue` guards, negated: `true` exactly
when the index survives lines 230-243. -/
def projectKept (cfg : ResearchConfig) (p : ResearchProject) : Bool :=
  p.valid
    && !((!cfg.use_cube && p.need_cube) || (!cfg.use_coin && p.need_coin)
          || (!cfg.use_part && p.need_part))
    && !(pyUpper p.genre == "B" || (pyUpper p.genre == "E" && p.duration != "6"))

def research_check_filter (cfg : ResearchConfig) (projects : List ResearchProject) :
    List PEntry → Option (List PEntry)
  | [] => some []
  | PEntry.tok s :: rest =>
    (research_check_filter cfg projects rest).map (fun out => PEntry.tok s :: out)
  | PEntry.idx i :: rest =>
    match projects[i]? with
    | none => none
    | some proj =>
      if projectKept cfg proj then
        (research_check_filter cfg projects rest).map (fun out => PEntry.idx i :: out)
      else
        research_check_filter cfg projects rest

/-! ## `ResearchProjectJp._parse_time` (project.py:374-388) and
`get_research_duration_jp` (project.py:337-342)

`_parse_time` searches the OCR string for the regex
`(\d+):(\d+):(\d+)`; on failure it logs a warning and returns `None`.
`get_research_duration_jp` then unconditionally calls
`.total_seconds()` on the result, so a `None` raises `AttributeError`
(modelled as `none`). -/

/-- Match `\d+:\d+:\d+` anchored at the start of `l` (greedy digit runs; no
backtracking is needed because `':'` is not a digit). -/
def matchTimeAt (l : List Char) : Option (Nat × Nat × Nat) :=
  let d1 := l.takeWhile Char.isDigit
  if d1.isEmpty then none
  else
    match l.dropWhile Char.isDigit with
    | ':' :: r2 =>
      let d2 := r2.takeWhile Char.isDigit
      if d2.isEmpty then none
      else
        match r2.dropWhile Char.isDigit with
        | ':' :: r4 =>
          let d3 := r4.takeWhile Char.isDigit
          if d3.isEmpty then none
          else
            some (Nat.ofDigits 10 (d1.map (fun c => c.toNat - '0'.toNat)).reverse,
                  Nat.ofDigits 10 (d2.map (fun c => c.toNat - '0'.toNat)).reverse,
                  Nat.ofDigits 10 (d3.map (fun c => c.toNat - '0'.toNat)).reverse)
        | _ => none
    | _ => none

/-- `re.search('(\d+):(\d+):(\d+)', string)`: leftmost match. -/
def searchTime : List Char → Option (Nat × Nat × Nat)
  | [] => none
  | c :: cs =>
    match matchTimeAt (c :: cs) with
    | some r => some r
    | none => searchTime cs

/-- `ResearchProjectJp._parse_time` (project.py:374-388), returning the
`timedelta`'s total seconds; `none` models the Python `None` return after
the logged warning. -/
def parse_time (s : String) : Option Nat :=
  (searchTime s.toList).map (fun r => r.1 * 3600 + r.2.1 * 60 + r.2.2)

/-- `ResearchProjectJp.get_research_duration_jp` (project.py:337-342) applied
to the OCR string: `str(self._parse_time(...).total_seconds() / 3600).rstrip('.0')`.
The code performs no `None` check, so when `_parse_time` returns `None` the
attribute access `total_seconds` raises `AttributeError`; `none` models the
raised exception.  (As with `durationString`, the rendering is modelled
exactly for totals that are whole half hours.) -/
def get_research_duration_jp (ocrString : String) : Option String :=
  (parse_time ocrString).map (fun secs => durationString secs)

/-! ## `MatchTemplate` (project.py:402-479)

`match_template` iterates the template names in library order, keeping a
running best similarity initialised to the floor `similarity = 0.85`; a
template becomes the result only when its score *strictly* exceeds the
running best.  The `cv2.matchTemplate`/`cv2.minMaxLoc` normalized
cross-correlation score of each template against the query is abstracted
as a `score : String → ℚ` assignment. -/

/-- The similarity floor `MatchTemplate.similarity = 0.85` (project.py:404). -/
def similarityFloor : ℚ := 85 / 100

/-- The loop of `match_template` (project.py:443-449): state is the running
best score and the running result. -/
def matchLoop (score : String → ℚ) : List String → ℚ × String → ℚ × String
  | [], st => st
  | n :: rest, (best, result) =>
    if score n > best then matchLoop score rest (score n, n)
    else matchLoop score rest (best, result)

/-- `MatchTemplate.match_template` (project.py:427-451): returns the name of
the best-scoring template if it strictly beats the floor, else `''`. -/
def match_template (score : String → ℚ) (names : List String) : String :=
  (matchLoop score names (similarityFloor, "")).2

/-! ## Template library loading (project.py:415-425, 453-469)

`_load_folder` builds a Python dict `{base name ↦ full filepath}` over
`os.listdir(folder)`; dict assignment overwrites, so a later file with the
same base name replaces an earlier one.  `load_template_folder` then copies
the (already key-unique) dict into `self.templates`, skipping keys already
present there.  Images are identified by their file path (`_load_image`
only decodes the file, which adds nothing to the mapping structure). -/

/-- Python `os.path.splitext(file)[0]` for a bare file name (no directory
separators): drop the extension after the last `'.'`, unless every
character before that dot is itself a dot (leading-dot files keep their
name whole). -/
def splitextBase (file : String) : String :=
  let l := file.toList
  match l.reverse.dropWhile (fun c => c != '.') with
  | [] => file
  | _ :: pre => if pre.reverse.any (fun c => c != '.') then pre.reverse.asString else file

/-- Python `os.path.join(folder, file)` for a relative file name. -/
def pyJoin (folder file : String) : String :=
  folder ++ "/" ++ file

/-- Insertion-ordered Python dict assignment `out[k] = v`: replace the value
in place if the key exists, else append. -/
def dictInsert : List (String × String) → String → String → List (String × String)
  | [], k, v => [(k, v)]
  | e :: rest, k, v => if e.1 == k then (k, v) :: rest else e :: dictInsert rest k v

/-- Python dict lookup (first entry with the key; entries built by
`dictInsert` have unique keys). -/
def dictLookup (m : List (String × String)) (k : String) : Option String :=
  (m.find? (fun e => e.1 == k)).map Prod.snd

/-- `MatchTemplate._load_folder` (project.py:453-469) over a directory
listing: `out[splitext(file)[0]] = join(folder, file)` for each file. -/
def load_folder (folder : String) (files : List String) : List (String × String) :=
  files.foldl (fun out file => dictInsert out (splitextBase file) (pyJoin folder file)) []

/-- `MatchTemplate.load_template_folder` (project.py:415-425): copy the
`_load_folder` result into the (initially empty) `templates` dict, skipping
names already present. -/
def load_template_folder (folder : String) (files : List String) : List (String × String) :=
  (load_folder folder files).foldl
    (fun t e => if t.any (fun x => x.1 == e.1) then t else t ++ [e]) []

/-! ## Lemmas about the priority post-filter -/

/-- Projection selecting the instruction tokens of a priority list. -/
def tokOf : PEntry → Option String
  | PEntry.tok s => some s
  | PEntry.idx _ => none

theorem research_check_filter_sublist (cfg : ResearchConfig)
    (projects : List ResearchProject) :
    ∀ (priority out : List PEntry),
      research_check_filter cfg projects priority = some out → out.Sublist priority := by
  intro priority
  induction priority with
  | nil =>
    intro out h
    simp only [research_check_filter, Option.some.injEq] at h
    subst h
    exact List.Sublist.refl _
  | cons e rest ih =>
    intro out h
    cases e with
    | tok s =>
      simp only [research_check_filter] at h
      rcases Option.map_eq_some'.mp h with ⟨o, ho, rfl⟩
      exact (ih o ho).cons₂ _
    | idx i =>
      cases hp : projects[i]? with
      | none => simp [research_check_filter, hp] at h
      | some proj =>
        simp only [research_check_filter, hp] at h
        by_cases hk : projectKept cfg proj
        · rw [if_pos hk] at h
          rcases Option.map_eq_some'.mp h with ⟨o, ho, rfl⟩
          exact (ih o ho).cons₂ _
        · rw [if_neg hk] at h
          exact (ih out h).cons _

theorem research_check_filter_notMem_of_dropped (cfg : ResearchConfig)
    (projects : List ResearchProject) :
    ∀ (priority out : List PEntry) (i : Nat) (p : ResearchProject),
      research_check_filter cfg projects priority = some out →
      projects[i]? = some p → projectKept cfg p = false → PEntry.idx i ∉ out := by
  intro priority
  induction priority with
  | nil =>
    intro out i p h _ _
    simp only [research_check_filter, Option.some.injEq] at h
    subst h
    exact List.not_mem_nil _
  | cons e rest ih =>
    intro out i p h hp hkept
    cases e with
    | tok s =>
      simp only [research_check_filter] at h
      rcases Option.map_eq_some'.mp h with ⟨o, ho, rfl⟩
      intro hmem
      rcases List.mem_cons.mp hmem with heq | hmem2
      · exact PEntry.noConfusion heq
      · exact ih o i p ho hp hkept hmem2
    | idx j =>
      cases hpj : projects[j]? with
      | none => simp [research_check_filter, hpj] at h
      | some proj =>
        simp only [research_check_filter, hpj] at h
        by_cases hk : projectKept cfg proj
        · rw [if_pos hk] at h
          rcases Option.map_eq_some'.mp h with ⟨o, ho, rfl⟩
          intro hmem
          rcases List.mem_cons.mp hmem with heq | hmem2
          · have hij : i = j := by cases heq; rfl
            subst hij
            rw [hp] at hpj
            cases hpj
            rw [hkept] at hk
            exact Bool.noConfusion hk
          · exact ih o i p ho hp hkept hmem2
        · rw [if_neg hk] at h
          exact ih out i p h hp hkept

theorem research_check_filter_tokens (cfg : ResearchConfig)
    (projects : List ResearchProject) :
    ∀ (priority out : List PEntry),
      research_check_filter cfg projects priority = some out →
      out.filterMap tokOf = priority.filterMap tokOf := by
  intro priority
  induction priority with
  | nil =>
    intro out h
    simp only [research_check_filter, Option.some.injEq] at h
    subst h
    rfl
  | cons e rest ih =>
    intro out h
    cases e with
    | tok s =>
      simp only [research_check_filter] at h
      rcases Option.map_eq_some'.mp h with ⟨o, ho, rfl⟩
      simp only [List.filterMap_cons, tokOf]
      rw [ih o ho]
    | idx i =>
      cases hp : projects[i]? with
      | none => simp [research_check_filter, hp] at h
      | some proj =>
        simp only [research_check_filter, hp] at h
        by_cases hk : projectKept cfg proj
        · rw [if_pos hk] at h
          rcases Option.map_eq_some'.mp h with ⟨o, ho, rfl⟩
          simp only [List.filterMap_cons, tokOf]
          exact ih o ho
        · rw [if_neg hk] at h
          simp only [List.filterMap_cons, tokOf]
          exact ih out h

theorem projectKept_false_of_genre_B (cfg : ResearchConfig) (p : ResearchProject)
    (hg : p.genre = "B") : projectKept cfg p = false := by
  have hup : pyUpper "B" = "B" := by decide
  simp [projectKept, hg, hup]

theorem projectKept_false_of_genre_E (cfg : ResearchConfig) (p : ResearchProject)
    (hg : p.genre = "E") (hd : p.duration ≠ "6") : projectKept cfg p = false := by
  have hup : pyUpper "E" = "E" := by decide
  simp [projectKept, hg, hup, hd]

/-! ## Sample data shared by the concrete witnesses -/

def rowC057 : ResearchRow :=
  { series := 1, name := "C-057-UL", time := 21600, input := ["Cube"], output := ["Drake"] }

def recordGenreB : ResearchProject :=
  { valid := true, name := "B-1", series := "S1", genre := "B", duration := "4",
    ship := "", ship_rarity := "", need_coin := false, need_cube := false, need_part := false }

def allResources : ResearchConfig := { use_cube := true, use_coin := true, use_part := true }

/-! ## Claims about the priority post-filter -/

/-- C4: on any successful run of the post-filter, the output never contains
the index of a record whose genre is `'B'`; never contains the index of a
record whose genre is `'E'` with duration other than `"6"`; and the string
tokens of the input survive unchanged, in their original relative order. -/
theorem research_check_filter_policy (cfg : ResearchConfig)
    (projects : List ResearchProject) (priority out : List PEntry)
    (h : research_check_filter cfg projects priority = some out) :
    (∀ i p, projects[i]? = some p → p.genre = "B" → PEntry.idx i ∉ out) ∧
    (∀ i p, projects[i]? = some p → p.genre = "E" → p.duration ≠ "6" → PEntry.idx i ∉ out) ∧
    out.filterMap tokOf = priority.filterMap tokOf := by
  refine ⟨?_, ?_, research_check_filter_tokens cfg projects priority out h⟩
  · intro i p hp hg
    exact research_check_filter_notMem_of_dropped cfg projects priority out i p h hp
      (projectKept_false_of_genre_B cfg p hg)
  · intro i p hp hg hd
    exact research_check_filter_notMem_of_dropped cfg projects priority out i p h hp
      (projectKept_false_of_genre_E cfg p hg hd)

/-- Witness for C4 at a concrete batch: a genre-`'B'` record's index is
dropped while the `'reset'` token survives. -/
theorem research_check_filter_policy_witness :
    PEntry.idx 0 ∉ ([PEntry.tok "reset"] : List PEntry) ∧
    ([PEntry.tok "reset"] : List PEntry).filterMap tokOf =
      ([PEntry.idx 0, PEntry.tok "reset"] : List PEntry).filterMap tokOf := by
  have h := research_check_filter_policy allResources [recordGenreB]
    [PEntry.idx 0, PEntry.tok "reset"] [PEntry.tok "reset"] (by decide)
  exact ⟨h.1 0 recordGenreB (by decide) (by decide), h.2.2⟩

/-- C10: every successful output of the post-filter is a subsequence of its
input: each surviving element occurs in the input, nothing is introduced or
duplicated, and the relative order of surviving indices and tokens is the
input order. -/
theorem research_check_filter_is_sublist (cfg : ResearchConfig)
    (projects : List ResearchProject) (priority out : List PEntry)
    (h : research_check_filter cfg projects priority = some out) :
    out.Sublist priority :=
  research_check_filter_sublist cfg projects priority out h

/-- Witness for C10 at a concrete batch. -/
theorem research_check_filter_is_sublist_witness :
    ([PEntry.tok "reset"] : List PEntry).Sublist [PEntry.idx 0, PEntry.tok "reset"] :=
  research_check_filter_is_sublist allResources [recordGenreB]
    [PEntry.idx 0, PEntry.tok "reset"] [PEntry.tok "reset"] (by decide)

/-! ## Unmatched construction (C3) -/

/-- The record produced when no catalog layer matches: the `__init__`
defaults with `valid` cleared. -/
def invalidRecord (name0 : String) (series : Nat) : ResearchProject :=
  { valid := false, name := name0, series := "S" ++ Nat.repr series, genre := "",
    duration := "24", ship := "", ship_rarity := "",
    need_coin := false, need_cube := false, need_part := false }

theorem init_of_no_match (catalog : List ResearchRow) (name : String) (series : Nat)
    (hnone : get_data catalog (check_name name) series = []) :
    research_project_init catalog name series = invalidRecord (check_name name) series := by
  simp only [research_project_init, hnone, List.head?_nil, invalidRecord]

theorem projectKept_false_of_invalid (cfg : ResearchConfig) (p : ResearchProject)
    (hv : p.valid = false) : projectKept cfg p = false := by
  simp [projectKept, hv]

/-- C3 (amended): an input with no catalog match at any layer yields (without
raising) a record with `valid = false`, best-effort name and series, empty
genre/ship/ship-rarity, all need flags false and the *default* duration
string `"24"`; its index is never emitted by the priority post-filter. -/
theorem unmatched_record_invalid (catalog : List ResearchRow) (name : String) (series : Nat)
    (hnone : get_data catalog (check_name name) series = []) :
    (research_project_init catalog name series).valid = false ∧
    (research_project_init catalog name series).name = check_name name ∧
    (research_project_init catalog name series).series = "S" ++ Nat.repr series ∧
    (research_project_init catalog name series).genre = "" ∧
    (research_project_init catalog name series).duration = "24" ∧
    (research_project_init catalog name series).ship = "" ∧
    (research_project_init catalog name series).ship_rarity = "" ∧
    (research_project_init catalog name series).need_coin = false ∧
    (research_project_init catalog name series).need_cube = false ∧
    (research_project_init catalog name series).need_part = false ∧
    (∀ (cfg : ResearchConfig) (projects : List ResearchProject)
        (priority out : List PEntry) (i : Nat),
      research_check_filter cfg projects priority = some out →
      projects[i]? = some (research_project_init catalog name series) →
      PEntry.idx i ∉ out) := by
  rw [init_of_no_match catalog name series hnone]
  refine ⟨rfl, rfl, rfl, rfl, rfl, rfl, rfl, rfl, rfl, rfl, ?_⟩
  intro cfg projects priority out i hfil hproj
  exact research_check_filter_notMem_of_dropped cfg projects priority out i _ hfil hproj
    (projectKept_false_of_invalid cfg _ rfl)

/-- C3 counterexample: the claim says an unmatched record carries a *zero*
duration, but the construction leaves the default duration string `"24"`
in place (project.py:95 is never overwritten when no layer matches). -/
theorem unmatched_record_duration_counterexample :
    (research_project_init [] "X" 1).duration = "24" ∧
    (research_project_init [] "X" 1).duration ≠ "0" ∧
    (research_project_init [] "X" 1).duration ≠ "" := by
  refine ⟨by decide, by decide, by decide⟩

/-- Witness for C3 at a concrete unmatched input. -/
theorem unmatched_record_invalid_witness :
    (research_project_init [] "X" 1).valid = false ∧
    PEntry.idx 0 ∉ ([] : List PEntry) := by
  have h := unmatched_record_invalid [] "X" 1 (by decide)
  exact ⟨h.1, h.2.2.2.2.2.2.2.2.2.2 allResources [research_project_init [] "X" 1]
    [PEntry.idx 0] [] 0 (by decide) (by decide)⟩

/-! ## Matched duration rendering (C1) -/

/-- C1 (amended): a matched record's duration is
`str(time / 3600).rstrip('.0')`; a 6-hour entry renders as `"6"`, a
half-hour entry as `"0.5"`, and a whole-hour entry renders as the decimal
hour count exactly when that count does not end in the digit 0 (counts
ending in 0 collapse further — see the counterexample). -/
theorem matched_record_duration (catalog : List ResearchRow) (name : String) (series : Nat)
    (d : ResearchRow) (hd : (get_data catalog (check_name name) series).head? = some d) :
    (research_project_init catalog name series).duration = durationString d.time ∧
    (d.time = 21600 → (research_project_init catalog name series).duration = "6") ∧
    (d.time = 1800 → (research_project_init catalog name series).duration = "0.5") ∧
    (∀ h : Nat, d.time = 3600 * h → h % 10 ≠ 0 →
      (research_project_init catalog name series).duration = Nat.repr h) := by
  have hdur : (research_project_init catalog name series).duration = durationString d.time := by
    simp only [research_project_init, hd]
  refine ⟨hdur, ?_, ?_, ?_⟩
  · intro ht; rw [hdur, ht]; decide
  · intro ht; rw [hdur, ht]; decide
  · intro h ht hmod; rw [hdur, ht]; exact durationString_whole_hours h hmod

/-- C1 counterexample: a 10-hour catalog time (36000 s) renders as `"1"`,
not `"10"`: `rstrip('.0')` strips the trailing character *set*, so
`"10.0"` collapses to `"1"`. -/
theorem duration_ten_hours_counterexample :
    durationString (3600 * 10) = "1" ∧ Nat.repr 10 = "10" ∧
    (research_project_init [⟨1, "Q-360-RF", 36000, [], []⟩] "Q-360-RF" 1).duration = "1" ∧
    (research_project_init [⟨1, "Q-360-RF", 36000, [], []⟩] "Q-360-RF" 1).duration ≠
      Nat.repr 10 := by
  refine ⟨by decide, by decide, by decide, by decide⟩

/-- Witness for C1 at a concrete 6-hour catalog entry. -/
theorem matched_record_duration_witness :
    (research_project_init [rowC057] "C-057-UL" 1).duration = "6" ∧
    (research_project_init [rowC057] "C-057-UL" 1).duration = Nat.repr 6 := by
  have h := matched_record_duration [rowC057] "C-057-UL" 1 rowC057 (by decide)
  exact ⟨h.2.1 rfl, h.2.2.2 6 rfl (by decide)⟩

/-! ## Round-trip identity on exact input (C5) -/

/-- C5: for any catalog whose `(series, name)` keys are pairwise distinct
(the catalog is a read-only lookup table), resolving a row's own canonical
name and series returns that row as the first yielded entry: the
exact-match layer precedes the substitution and loose layers in
`get_data`. -/
theorem get_data_roundtrip (catalog : List ResearchRow) (R : ResearchRow)
    (hmem : R ∈ catalog)
    (huniq : catalog.Pairwise (fun a b => a.series ≠ b.series ∨ a.name ≠ b.name)) :
    (get_data catalog R.name R.series).head? = some R := by
  have hsymm : Symmetric (fun a b : ResearchRow => a.series ≠ b.series ∨ a.name ≠ b.name) := by
    intro a b hab
    rcases hab with h1 | h2
    · exact Or.inl (Ne.symm h1)
    · exact Or.inr (Ne.symm h2)
  have hpR : (fun d : ResearchRow => d.series == R.series && d.name == R.name) R = true := by
    simp
  have hkey : ∀ x ∈ catalog,
      (fun d : ResearchRow => d.series == R.series && d.name == R.name) x = true → x = R := by
    intro x hx hpx
    by_contra hne
    have hrel := huniq.forall hsymm hx hmem hne
    simp only [Bool.and_eq_true, beq_iff_eq] at hpx
    rcases hrel with h1 | h2
    · exact h1 hpx.1
    · exact h2 hpx.2
  have hhead : (layerExact catalog R.name R.series).head? = some R := by
    have hmemf : R ∈ layerExact catalog R.name R.series :=
      List.mem_filter.mpr ⟨hmem, hpR⟩
    cases hf : layerExact catalog R.name R.series with
    | nil => rw [hf] at hmemf; exact absurd hmemf (List.not_mem_nil R)
    | cons x xs =>
      have hxmem : x ∈ layerExact catalog R.name R.series := by
        rw [hf]; exact List.mem_cons_self x xs
      have hxcat := List.mem_filter.mp hxmem
      rw [hkey x hxcat.1 hxcat.2]
      rfl
  simp [get_data, hhead]

/-- Witness for C5 at a concrete two-row catalog. -/
theorem get_data_roundtrip_witness :
    (get_data [rowC057, ⟨2, "D-031-MI", 1800, [], []⟩] "C-057-UL" 1).head? = some rowC057 := by
  have h := get_data_roundtrip [rowC057, ⟨2, "D-031-MI", 1800, [], []⟩] rowC057
    (by decide) (by simp [rowC057])
  exact h

/-! ## Unknown series (C6) -/

/-- C6 (amended): a peak count outside `{1, 2, 3}` is reported as the
unknown marker 0 (with a logged warning) and raises nothing; however, every
matching layer of `get_data` requires exact series equality, so a record
whose series marker matches no catalog row's series — in particular the
marker 0 against a real catalog — matches nothing at any layer and the
record is marked invalid (still without raising). -/
theorem unknown_series_behavior :
    (∀ n : Nat, ¬(1 ≤ n ∧ n ≤ 3) → research_series_of_peaks n = 0) ∧
    (∀ (catalog : List ResearchRow) (name : String) (s : Nat),
      (∀ r ∈ catalog, r.series ≠ s) → get_data catalog name s = []) ∧
    (∀ (catalog : List ResearchRow) (name : String) (s : Nat),
      (∀ r ∈ catalog, r.series ≠ s) →
        (research_project_init catalog name s).valid = false) := by
  have hempty : ∀ (catalog : List ResearchRow) (name : String) (s : Nat),
      (∀ r ∈ catalog, r.series ≠ s) → get_data catalog name s = [] := by
    intro catalog name s hr
    have hfil : ∀ (q : String),
        catalog.filter (fun d => d.series == s && d.name == q) = [] := by
      intro q
      apply List.filter_eq_nil_iff.mpr
      intro a ha
      simp only [Bool.and_eq_true, beq_iff_eq, not_and]
      intro hser
      exact absurd hser (hr a ha)
    have hloose : catalog.filter
        (fun d => d.series == s && pyRstripSuffixSet d.name == pyRstripSuffixSet name) = [] := by
      apply List.filter_eq_nil_iff.mpr
      intro a ha
      simp only [Bool.and_eq_true, beq_iff_eq, not_and]
      intro hser
      exact absurd hser (hr a ha)
    unfold get_data layerExact layerShiny layerLoose
    rw [hfil name, hloose]
    split
    · rw [hfil (shinySubstitute name)]; rfl
    · rfl
  refine ⟨?_, hempty, ?_⟩
  · intro n hn
    simp [research_series_of_peaks, hn]
  · intro catalog name s hr
    rw [init_of_no_match catalog name s (hempty catalog (check_name name) s hr)]
    rfl

/-- C6 counterexample: the claim's second half says a series-0 record "can
still be matched against the catalog by a series-agnostic fallback layer",
but no such layer exists: even the row's own exact name fails to match
under series 0, and the record comes out invalid. -/
theorem unknown_series_no_fallback_counterexample :
    get_data [rowC057] "C-057-UL" 0 = [] ∧
    (research_project_init [rowC057] "C-057-UL" 0).valid = false := by
  refine ⟨by decide, by decide⟩

/-- Witness for C6 at concrete inputs. -/
theorem unknown_series_behavior_witness :
    research_series_of_peaks 5 = 0 ∧ get_data [rowC057] "X" 0 = [] := by
  have h := unknown_series_behavior
  exact ⟨h.1 5 (by decide), h.2.1 [rowC057] "X" 0 (by decide)⟩

/-! ## Template matching (C7) -/

/-- Invariant of the `match_template` loop: either nothing strictly beat the
running best (state unchanged, all scores at or below it), or the final
result is the first name attaining the final best score, with everything
before it scoring strictly below and everything after at most it. -/
theorem matchLoop_spec (score : String → ℚ) :
    ∀ (names : List String) (b : ℚ) (r : String) (b' : ℚ) (r' : String),
      matchLoop score names (b, r) = (b', r') →
      (b' = b ∧ r' = r ∧ ∀ n ∈ names, score n ≤ b) ∨
      (∃ l1 l2, names = l1 ++ r' :: l2 ∧ b' = score r' ∧ score r' > b ∧
        (∀ n ∈ l1, score n < score r') ∧ (∀ n ∈ l2, score n ≤ score r')) := by
  intro names
  induction names with
  | nil =>
    intro b r b' r' h
    simp only [matchLoop, Prod.mk.injEq] at h
    left
    exact ⟨h.1.symm, h.2.symm, by simp⟩
  | cons n rest ih =>
    intro b r b' r' h
    by_cases hs : score n > b
    · rw [show matchLoop score (n :: rest) (b, r) = matchLoop score rest (score n, n) from by
        simp [matchLoop, hs]] at h
      rcases ih (score n) n b' r' h with ⟨hb, hr, hall⟩ | ⟨l1, l2, hsplit, hbest, hgt, hl1, hl2⟩
      · subst hb; subst hr
        right
        exact ⟨[], rest, by simp, rfl, hs, by simp, hall⟩
      · right
        refine ⟨n :: l1, l2, by rw [hsplit]; rfl, hbest, lt_trans hs hgt, ?_, hl2⟩
        intro m hm
        rcases List.mem_cons.mp hm with rfl | hm2
        · exact hgt
        · exact hl1 m hm2
    · rw [show matchLoop score (n :: rest) (b, r) = matchLoop score rest (b, r) from by
        simp [matchLoop, hs]] at h
      rcases ih b r b' r' h with ⟨hb, hr, hall⟩ | ⟨l1, l2, hsplit, hbest, hgt, hl1, hl2⟩
      · left
        refine ⟨hb, hr, ?_⟩
        intro m hm
        rcases List.mem_cons.mp hm with rfl | hm2
        · exact not_lt.mp hs
        · exact hall m hm2
      · right
        refine ⟨n :: l1, l2, by rw [hsplit]; rfl, hbest, hgt, ?_, hl2⟩
        intro m hm
        rcases List.mem_cons.mp hm with rfl | hm2
        · exact lt_of_le_of_lt (not_lt.mp hs) hgt
        · exact hl1 m hm2

/-- C7: `match_template` accepts only scores strictly above the 0.85 floor,
tie-breaks by library order (the first name attaining the maximum wins,
since a later name must strictly exceed the running best), returns the
matching reference's own label when the query scores 1 against it and
strictly below 1 against every other reference (the model of a query
identical to exactly one reference image), and returns the empty string
(raising nothing) when no reference clears the floor. -/
theorem match_template_spec (score : String → ℚ) (names : List String) :
    (match_template score names ≠ "" →
      match_template score names ∈ names ∧
      score (match_template score names) > similarityFloor ∧
      ∃ l1 l2, names = l1 ++ match_template score names :: l2 ∧
        (∀ n ∈ l1, score n < score (match_template score names)) ∧
        (∀ n ∈ l2, score n ≤ score (match_template score names))) ∧
    ((∀ n ∈ names, score n ≤ similarityFloor) → match_template score names = "") ∧
    (∀ r ∈ names, score r = 1 → (∀ n ∈ names, n ≠ r → score n < 1) →
      match_template score names = r) := by
  rcases hM : matchLoop score names (similarityFloor, "") with ⟨b', r'⟩
  have hres : match_template score names = r' := by
    simp [match_template, hM]
  rcases matchLoop_spec score names similarityFloor "" b' r' hM with
    ⟨hb, hr, hall⟩ | ⟨l1, l2, hsplit, hbest, hgt, hl1, hl2⟩
  · rw [hres, hr]
    refine ⟨fun hcon => absurd rfl hcon, fun _ => rfl, ?_⟩
    intro r hrmem hscore hothers
    have := hall r hrmem
    rw [hscore] at this
    have hfloor : similarityFloor < 1 := by norm_num [similarityFloor]
    exact absurd this (not_le.mpr hfloor)
  · have hmem : r' ∈ names := by
      rw [hsplit]
      exact List.mem_append_right l1 (List.mem_cons_self r' l2)
    rw [hres]
    refine ⟨fun _ => ⟨hmem, hgt, l1, l2, hsplit, hl1, hl2⟩, ?_, ?_⟩
    · intro hallle
      exact absurd (hallle r' hmem) (not_le.mpr hgt)
    · intro r hrmem hscore hothers
      by_cases heq : r' = r
      · exact heq
      · exfalso
        have hlt : score r' < 1 := hothers r' hmem heq
        rw [hsplit] at hrmem
        rcases List.mem_append.mp hrmem with hin1 | hin2
        · have := hl1 r hin1
          rw [hscore] at this
          exact absurd (lt_trans this hlt) (lt_irrefl 1)
        · rcases List.mem_cons.mp hin2 with rfl | hin3
          · exact heq rfl
          · have := hl2 r hin3
            rw [hscore] at this
            exact absurd (lt_of_le_of_lt this hlt) (lt_irrefl 1)

/-- Witness for C7: a query scoring 1 against `"drake"` and 0 against the
other reference selects `"drake"`. -/
theorem match_template_spec_witness :
    match_template (fun n => if n == "drake" then 1 else 0) ["seattle", "drake"] = "drake" := by
  have h := (match_template_spec (fun n => if n == "drake" then 1 else 0)
    ["seattle", "drake"]).2.2
  exact h "drake" (by decide) (by decide) (by decide)

/-! ## Template library loading (C8) -/

theorem dictLookup_dictInsert_self (m : List (String × String)) (k v : String) :
    dictLookup (dictInsert m k v) k = some v := by
  induction m with
  | nil => simp [dictInsert, dictLookup, List.find?]
  | cons e rest ih =>
    by_cases he : e.1 == k
    · simp [dictInsert, he, dictLookup, List.find?]
    · simp only [dictInsert, he, Bool.false_eq_true, if_false]
      simp only [dictLookup, List.find?, he]
      exact ih

theorem dictLookup_dictInsert_ne (m : List (String × String)) (k v q : String)
    (hq : q ≠ k) : dictLookup (dictInsert m k v) q = dictLookup m q := by
  induction m with
  | nil =>
    have : (k == q) = false := by
      simp [beq_eq_false_iff_ne]
      exact fun hc => hq hc.symm
    simp [dictInsert, dictLookup, List.find?, this]
  | cons e rest ih =>
    by_cases he : e.1 == k
    · have hek : e.1 = k := by simpa using he
      have : (k == q) = false := by
        simp [beq_eq_false_iff_ne]
        exact fun hc => hq hc.symm
      have he2 : (e.1 == q) = false := by
        rw [hek]; exact this
      simp [dictInsert, he, dictLookup, List.find?, this, he2]
    · simp only [dictInsert, he, Bool.false_eq_true, if_false]
      by_cases heq : e.1 == q
      · simp [dictLookup, List.find?, heq]
      · simp only [dictLookup, List.find?, heq, Bool.false_eq_true]
        exact ih

theorem dictLookup_isSome_of_any (m : List (String × String)) (k : String)
    (h : m.any (fun x => x.1 == k) = true) : ∃ v, dictLookup m k = some v := by
  induction m with
  | nil => simp at h
  | cons e rest ih =>
    by_cases he : e.1 == k
    · exact ⟨e.2, by simp [dictLookup, List.find?, he]⟩
    · simp only [List.any_cons, he, Bool.false_or] at h
      obtain ⟨v, hv⟩ := ih h
      exact ⟨v, by simp only [dictLookup, List.find?, he, Bool.false_eq_true]; exact hv⟩

/-- Lookup after the `_load_folder` fold: the last file (in listing order)
with the queried base name wins, falling back to the initial dict. -/
theorem load_folder_foldl_lookup (folder : String) :
    ∀ (files : List String) (m : List (String × String)) (n : String),
      dictLookup (files.foldl
          (fun out file => dictInsert out (splitextBase file) (pyJoin folder file)) m) n =
        (((files.filter (fun f => splitextBase f == n)).getLast?).map (pyJoin folder)).or
          (dictLookup m n) := by
  intro files
  induction files with
  | nil => intro m n; simp
  | cons f fs ih =>
    intro m n
    simp only [List.foldl_cons]
    rw [ih]
    by_cases hbf : splitextBase f == n
    · have hbfe : splitextBase f = n := by simpa using hbf
      simp only [List.filter_cons, hbf, if_true]
      cases hfil : fs.filter (fun g => splitextBase g == n) with
      | cons x xs =>
        rw [List.getLast?_cons_cons]
        cases hlast : (x :: xs).getLast? with
        | none => rw [List.getLast?_eq_none_iff] at hlast; exact List.noConfusion hlast
        | some g => rfl
      | nil =>
        simp only [List.getLast?_nil, Option.map_none', Option.none_or,
          List.getLast?_singleton, Option.map_some']
        show dictLookup (dictInsert m (splitextBase f) (pyJoin folder f)) n = some (pyJoin folder f)
        rw [← hbfe]
        exact dictLookup_dictInsert_self m (splitextBase f) (pyJoin folder f)
    · have hbfe : splitextBase f ≠ n := by simpa using hbf
      have hbf2 : (splitextBase f == n) = false := by simpa using hbfe
      simp only [List.filter_cons, hbf2, Bool.false_eq_true, if_false]
      rw [dictLookup_dictInsert_ne m (splitextBase f) (pyJoin folder f) n
        (fun hc => hbfe hc.symm)]

/-- Lookup is preserved by the copy loop of `load_template_folder`: skipping
keys already present keeps exactly the first binding per key, which is the
lookup semantics of the source dict. -/
theorem skip_dup_foldl_lookup :
    ∀ (d t : List (String × String)) (n : String),
      dictLookup (d.foldl (fun t e => if t.any (fun x => x.1 == e.1) then t else t ++ [e]) t) n =
        (dictLookup t n).or (dictLookup d n) := by
  intro d
  induction d with
  | nil => intro t n; simp [dictLookup, List.find?]
  | cons e rest ih =>
    intro t n
    simp only [List.foldl_cons]
    rw [ih]
    by_cases hc : t.any (fun x => x.1 == e.1)
    · rw [if_pos hc]
      by_cases hen : e.1 == n
      · have hene : e.1 = n := by simpa using hen
        obtain ⟨v, hv⟩ := dictLookup_isSome_of_any t n (by rw [← hene]; exact hc)
        rw [hv]
        rfl
      · simp only [dictLookup, List.find?, hen, Bool.false_eq_true]
    · rw [if_neg hc]
      cases hlt : dictLookup t n with
      | some v =>
        have hta : dictLookup (t ++ [e]) n = some v := by
          simp only [dictLookup, List.find?_append] at hlt ⊢
          rcases Option.map_eq_some'.mp hlt with ⟨x, hx, hxv⟩
          rw [hx]
          simp [hxv]
        rw [hta]
        rfl
      | none =>
        have hfind : t.find? (fun x => x.1 == n) = none := by
          simp only [dictLookup, Option.map_eq_none'] at hlt
          exact hlt
        have : dictLookup (t ++ [e]) n = dictLookup [e] n := by
          simp [dictLookup, List.find?_append, hfind]
        rw [this]
        simp only [Option.none_or]
        by_cases hen : e.1 == n
        · simp [dictLookup, List.find?, hen]
        · simp only [dictLookup, List.find?, hen, Bool.false_eq_true, if_false]
          simp [List.find?]

/-- C8 (amended): for every directory listing, the template mapping binds a
base name to the *last* file in listing order with that base name: the
Python dict assignment in `_load_folder` silently overwrites earlier
duplicates, and the first-wins guard in `load_template_folder` never fires
during construction because it copies an already key-unique dict into an
initially empty one. -/
theorem load_template_folder_last_wins (folder : String) (files : List String) (n : String) :
    dictLookup (load_template_folder folder files) n =
      ((files.filter (fun f => splitextBase f == n)).getLast?).map (pyJoin folder) := by
  unfold load_template_folder load_folder
  rw [skip_dup_foldl_lookup]
  rw [show dictLookup ([] : List (String × String)) n = none from rfl, Option.none_or]
  rw [load_folder_foldl_lookup folder files [] n]
  rw [show dictLookup ([] : List (String × String)) n = none from rfl, Option.or_none]

/-- C8 counterexample: with the listing `["a.png", "a.jpg"]` both files share
the base name `"a"`; the claim says the first-loaded file is kept, but the
mapping holds the *later* file `"a.jpg"`. -/
theorem load_template_duplicate_counterexample :
    dictLookup (load_template_folder "t" ["a.png", "a.jpg"]) "a" = some "t/a.jpg" ∧
    ("t/a.jpg" : String) ≠ "t/a.png" := by
  refine ⟨by decide, by decide⟩

/-! ## JP duration path (C2) -/

/-- C2: on the JP duration path, an OCR string with no `HH:MM:SS` pattern
makes `_parse_time` log a warning and return `None` — but
`get_research_duration_jp` then dereferences `.total_seconds()` on that
`None`, raising `AttributeError` (modelled `none`): construction aborts
instead of completing with a null duration as the claim states. -/
theorem jp_duration_no_time_pattern (s : String) (h : searchTime s.toList = none) :
    parse_time s = none ∧ get_research_duration_jp s = none := by
  have hp : parse_time s = none := by
    unfold parse_time
    rw [h]
    rfl
  exact ⟨hp, by unfold get_research_duration_jp; rw [hp]; rfl⟩

/-- Witness for C2 at the concrete malformed OCR string `"0123"`. -/
theorem jp_duration_no_time_pattern_witness :
    parse_time "0123" = none ∧ get_research_duration_jp "0123" = none :=
  jp_duration_no_time_pattern "0123" (by decide)

/-! ## `check_name` idempotence (C9) -/

theorem head?_dropWhile_false (p : α → Bool) :
    ∀ (l : List α) (c : α), (l.dropWhile p).head? = some c → p c = false := by
  intro l
  induction l with
  | nil => intro c hc; simp [List.dropWhile] at hc
  | cons x xs ih =>
    intro c hc
    by_cases hx : p x
    · rw [List.dropWhile_cons, if_pos hx] at hc
      exact ih c hc
    · rw [dropWhile_cons_of_neg hx] at hc
      cases hc
      simpa using hx

theorem dropWhile_eq_self_of_head (p : α → Bool) (l : List α)
    (h : ∀ c, l.head? = some c → p c = false) : l.dropWhile p = l := by
  cases l with
  | nil => rfl
  | cons x xs =>
    have hx := h x rfl
    rw [List.dropWhile_cons, hx]
    simp

theorem lstripSet_eq_self (chars : List Char) (l : List Char)
    (h : ∀ c, l.head? = some c → chars.contains c = false) : lstripSet chars l = l :=
  dropWhile_eq_self_of_head _ _ h

theorem rstripSet_eq_self (chars : List Char) (l : List Char)
    (h : ∀ c, l.getLast? = some c → chars.contains c = false) :
    rstripSet chars l = l := by
  have h2 : ∀ c, l.reverse.head? = some c → (fun c => chars.contains c) c = false := by
    intro c hc
    rw [List.head?_reverse] at hc
    exact h c hc
  unfold rstripSet
  rw [dropWhile_eq_self_of_head _ _ h2, List.reverse_reverse]

theorem stripSet_eq_self (chars : List Char) (l : List Char)
    (hh : ∀ c, l.head? = some c → chars.contains c = false)
    (hl : ∀ c, l.getLast? = some c → chars.contains c = false) : stripSet chars l = l := by
  unfold stripSet
  rw [lstripSet_eq_self chars l hh]
  exact rstripSet_eq_self chars l hl

/-- The head of a stripped string never lies in the stripped set. -/
theorem stripSet_head (chars : List Char) (l : List Char) :
    ∀ c, (stripSet chars l).head? = some c → chars.contains c = false := by
  intro c hc
  have hpre : stripSet chars l = List.dropWhile (fun c => chars.contains c) (lstripSet chars l) ∨
      True := Or.inr trivial
  -- `stripSet chars l` is a prefix of `lstripSet chars l`
  have hsplit : lstripSet chars l = stripSet chars l ++
      (List.takeWhile (fun c => chars.contains c) (lstripSet chars l).reverse).reverse := by
    have ht := List.takeWhile_append_dropWhile (p := fun c => chars.contains c)
      (l := (lstripSet chars l).reverse)
    calc lstripSet chars l = (lstripSet chars l).reverse.reverse := by rw [List.reverse_reverse]
    _ = ((List.takeWhile (fun c => chars.contains c) (lstripSet chars l).reverse) ++
          (List.dropWhile (fun c => chars.contains c) (lstripSet chars l).reverse)).reverse := by
        rw [ht]
    _ = _ := by
        rw [List.reverse_append]
        rfl
  have hd : (lstripSet chars l).head? = some c := by
    cases hA : stripSet chars l with
    | nil => rw [hA] at hc; exact Option.noConfusion hc
    | cons x xs =>
      rw [hA] at hc
      cases hc
      rw [hsplit, hA]
      rfl
  exact head?_dropWhile_false _ l c hd

/-- The last character of a stripped string never lies in the stripped set. -/
theorem stripSet_getLast (chars : List Char) (l : List Char) :
    ∀ c, (stripSet chars l).getLast? = some c → chars.contains c = false := by
  intro c hc
  unfold stripSet rstripSet at hc
  rw [List.getLast?_reverse] at hc
  exact head?_dropWhile_false _ _ c hc

theorem stripSet_idem (chars : List Char) (l : List Char) :
    stripSet chars (stripSet chars l) = stripSet chars l :=
  stripSet_eq_self chars _ (stripSet_head chars l) (stripSet_getLast chars l)

theorem splitL_ne_nil (sep : Char) : ∀ l, splitL sep l ≠ [] := by
  intro l
  cases l with
  | nil => simp [splitL]
  | cons c cs =>
    by_cases hcs : c = sep
    · simp [splitL, hcs]
    · rw [splitL, if_neg hcs]
      cases hr : splitL sep cs with
      | nil => simp
      | cons h t => simp

/-- No segment produced by `splitL` contains the separator. -/
theorem splitL_parts_no_sep (sep : Char) :
    ∀ (l : List Char) (part : List Char), part ∈ splitL sep l → sep ∉ part := by
  intro l
  induction l with
  | nil =>
    intro part hp
    simp only [splitL, List.mem_singleton] at hp
    subst hp
    simp
  | cons c cs ih =>
    intro part hp
    by_cases hcs : c = sep
    · rw [splitL, if_pos hcs] at hp
      rcases List.mem_cons.mp hp with rfl | hp2
      · simp
      · exact ih part hp2
    · rw [splitL, if_neg hcs] at hp
      cases hr : splitL sep cs with
      | nil => exact absurd hr (splitL_ne_nil sep cs)
      | cons h0 t0 =>
        rw [hr] at hp
        rcases List.mem_cons.mp hp with rfl | hp2
        · intro hmem
          rcases List.mem_cons.mp hmem with heq | hmem2
          · exact hcs heq.symm
          · exact ih h0 (by rw [hr]; exact List.mem_cons_self h0 t0) hmem2
        · exact ih part (by rw [hr]; exact List.mem_cons.mpr (Or.inr hp2))

theorem splitL_append_sep (sep : Char) :
    ∀ (a l : List Char), sep ∉ a → splitL sep (a ++ sep :: l) = a :: splitL sep l := by
  intro a
  induction a with
  | nil =>
    intro l _
    show splitL sep (sep :: l) = [] :: splitL sep l
    rw [splitL, if_pos rfl]
  | cons x xs ih =>
    intro l ha
    have hx : x ≠ sep := by
      intro hc
      exact ha (by rw [← hc] at *; exact List.mem_cons_self x xs)
    show splitL sep (x :: (xs ++ sep :: l)) = (x :: xs) :: splitL sep l
    rw [splitL, if_neg hx, ih l (fun hm => ha (List.mem_cons.mpr (Or.inr hm)))]

theorem splitL_no_sep (sep : Char) :
    ∀ (a : List Char), sep ∉ a → splitL sep a = [a] := by
  intro a
  induction a with
  | nil => intro _; rfl
  | cons x xs ih =>
    intro ha
    have hx : x ≠ sep := by
      intro hc
      exact ha (by rw [← hc] at *; exact List.mem_cons_self x xs)
    rw [splitL, if_neg hx, ih (fun hm => ha (List.mem_cons.mpr (Or.inr hm)))]

/-- If the input starts with a non-separator, the first segment starts with
that character. -/
theorem splitL_head_struct (sep c : Char) (cs : List Char) (h : c ≠ sep) :
    ∃ hh t, splitL sep (c :: cs) = (c :: hh) :: t := by
  rw [splitL, if_neg h]
  cases hr : splitL sep cs with
  | nil => exact ⟨[], [], rfl⟩
  | cons h0 t0 => exact ⟨h0, t0, rfl⟩

/-- If the input does not end with the separator, the last segment carries
the input's last character. -/
theorem splitL_last_struct (sep : Char) :
    ∀ (l : List Char), (∀ ch, l.getLast? = some ch → ch ≠ sep) →
      ∃ ps p, splitL sep l = ps ++ [p] ∧ p.getLast? = l.getLast? := by
  intro l
  induction l with
  | nil => intro _; exact ⟨[], [], rfl, rfl⟩
  | cons c cs ih =>
    intro hl
    cases cs with
    | nil =>
      have hc : c ≠ sep := hl c rfl
      exact ⟨[], [c], by rw [splitL, if_neg hc]; rfl, rfl⟩
    | cons c2 cs2 =>
      have hl2 : ∀ ch, (c2 :: cs2).getLast? = some ch → ch ≠ sep := by
        intro ch hch
        apply hl
        rw [List.getLast?_cons_cons]
        exact hch
      obtain ⟨ps, p, hsp, hgl⟩ := ih hl2
      by_cases hc : c = sep
      · refine ⟨[] :: ps, p, ?_, ?_⟩
        · rw [splitL, if_pos hc, hsp]
          rfl
        · rw [List.getLast?_cons_cons]
          exact hgl
      · have hsome : ∃ ch, (c2 :: cs2).getLast? = some ch := by
          cases hx : (c2 :: cs2).getLast? with
          | none => rw [List.getLast?_eq_none_iff] at hx; exact List.noConfusion hx
          | some ch => exact ⟨ch, rfl⟩
        obtain ⟨ch, hch⟩ := hsome
        cases ps with
        | nil =>
          have hsp2 : splitL sep (c2 :: cs2) = [p] := by simpa using hsp
          have hpne : p ≠ [] := by
            intro hc2
            rw [hc2] at hgl
            rw [hch] at hgl
            exact Option.noConfusion hgl
          refine ⟨[], c :: p, ?_, ?_⟩
          · rw [splitL, if_neg hc, hsp2]
            rfl
          · rw [List.getLast?_cons_cons]
            cases p with
            | nil => exact absurd rfl hpne
            | cons p0 ps0 =>
              rw [List.getLast?_cons_cons]
              exact hgl
        | cons q qs =>
          have hsp2 : splitL sep (c2 :: cs2) = q :: (qs ++ [p]) := by simpa using hsp
          refine ⟨(c :: q) :: qs, p, ?_, ?_⟩
          · rw [splitL, if_neg hc, hsp2]
            rfl
          · rw [List.getLast?_cons_cons]
            exact hgl

theorem fixChar_idem (c : Char) : fixChar (fixChar c) = fixChar c := by
  by_cases h1 : c = 'D'
  · simp [fixChar, h1]
  · by_cases h2 : c = 'O'
    · simp [fixChar, h1, h2]
    · by_cases h3 : c = 'S'
      · simp [fixChar, h1, h2, h3]
      · simp [fixChar, h1, h2, h3]

theorem fixDigits_idem (l : List Char) : fixDigits (fixDigits l) = fixDigits l := by
  induction l with
  | nil => rfl
  | cons c cs ih =>
    simp only [fixDigits, List.map_cons] at ih ⊢
    rw [fixChar_idem]
    rw [show List.map fixChar (List.map fixChar cs) = List.map fixChar cs from ih]

theorem fixChar_ne_dash (c : Char) (h : c ≠ '-') : fixChar c ≠ '-' := by
  by_cases h1 : c = 'D'
  · simp [fixChar, h1]
  · by_cases h2 : c = 'O'
    · simp [fixChar, h1, h2]
    · by_cases h3 : c = 'S'
      · simp [fixChar, h1, h2, h3]
      · simpa [fixChar, h1, h2, h3] using h

theorem fixDigits_no_dash (l : List Char) (h : '-' ∉ l) : '-' ∉ fixDigits l := by
  intro hmem
  obtain ⟨c, hcl, hcf⟩ := List.mem_map.mp hmem
  exact fixChar_ne_dash c (fun hcd => h (hcd ▸ hcl)) hcf

theorem contains_dash_eq_false (c : Char) (h : c ≠ '-') :
    (['-'] : List Char).contains c = false := by
  simpa using h

theorem contains_dash_ne (c : Char) (h : (['-'] : List Char).contains c = false) : c ≠ '-' := by
  simpa using h

theorem checkNameL_idem (l : List Char) : checkNameL (checkNameL l) = checkNameL l := by
  by_cases h3 : (splitL '-' (stripSet ['-'] l)).length = 3
  · -- three segments: `l` maps to `z = a ++ '-' :: fixDigits b ++ '-' :: c`
    obtain ⟨a, b, c, habc⟩ := List.length_eq_three.mp h3
    have hyne : stripSet ['-'] l ≠ [] := by
      intro hnil
      rw [hnil] at habc
      simp [splitL] at habc
    obtain ⟨c0, y1, hyc⟩ : ∃ c0 y1, stripSet ['-'] l = c0 :: y1 := by
      cases hx : stripSet ['-'] l with
      | nil => exact absurd hx hyne
      | cons c0 y1 => exact ⟨c0, y1, rfl⟩
    have hc0 : c0 ≠ '-' := by
      apply contains_dash_ne
      apply stripSet_head ['-'] l
      rw [hyc]
      rfl
    have hylast : ∀ ch, (stripSet ['-'] l).getLast? = some ch → ch ≠ '-' := by
      intro ch hch
      exact contains_dash_ne ch (stripSet_getLast ['-'] l ch hch)
    obtain ⟨hh0, t0, hS4⟩ := splitL_head_struct '-' c0 y1 hc0
    have habc2 : (c0 :: hh0) :: t0 = [a, b, c] := by
      rw [← hS4, ← hyc, habc]
    have ha_eq : a = c0 :: hh0 := by
      injection habc2 with h1 _
      exact h1.symm
    obtain ⟨ps, p, hsp5, hgl5⟩ := splitL_last_struct '-' (stripSet ['-'] l) hylast
    have hpc : p = c := by
      have he : ps ++ [p] = [a, b, c] := by rw [← hsp5, habc]
      have h1 : (ps ++ [p]).getLast? = some p := List.getLast?_concat ps
      rw [he] at h1
      have h2 : ([a, b, c] : List (List Char)).getLast? = some c := rfl
      rw [h2] at h1
      injection h1 with h4
      exact h4.symm
    obtain ⟨chY, hchY⟩ : ∃ chY, (stripSet ['-'] l).getLast? = some chY := by
      cases hx : (stripSet ['-'] l).getLast? with
      | none => rw [List.getLast?_eq_none_iff] at hx; exact absurd hx hyne
      | some chY => exact ⟨chY, rfl⟩
    have hchY_ne : chY ≠ '-' := hylast chY hchY
    have hcl : c.getLast? = some chY := by
      rw [← hpc, hgl5, hchY]
    have hna : '-' ∉ a := splitL_parts_no_sep '-' _ a (by rw [habc]; simp)
    have hnb : '-' ∉ b := splitL_parts_no_sep '-' _ b (by rw [habc]; simp)
    have hnc : '-' ∉ c := splitL_parts_no_sep '-' _ c (by rw [habc]; simp)
    have hres : checkNameL l = a ++ '-' :: fixDigits b ++ '-' :: c := by
      simp only [checkNameL]
      rw [habc]
      simp [List.getD]
    have hzhead : ∀ ch, (a ++ '-' :: fixDigits b ++ '-' :: c).head? = some ch →
        (['-'] : List Char).contains ch = false := by
      intro ch hch
      rw [ha_eq] at hch
      have h0 : (((c0 :: hh0) : List Char) ++ '-' :: fixDigits b ++ '-' :: c).head? =
          some c0 := rfl
      rw [h0] at hch
      injection hch with h1
      subst h1
      exact contains_dash_eq_false c0 hc0
    have hzlast : ∀ ch, (a ++ '-' :: fixDigits b ++ '-' :: c).getLast? = some ch →
        (['-'] : List Char).contains ch = false := by
      intro ch hch
      have hz2 : a ++ '-' :: fixDigits b ++ '-' :: c = (a ++ '-' :: fixDigits b ++ ['-']) ++ c := by
        simp
      rw [hz2, List.getLast?_append, hcl] at hch
      simp only [Option.or_some] at hch
      injection hch with h1
      subst h1
      exact contains_dash_eq_false chY hchY_ne
    have hstrip : stripSet ['-'] (a ++ '-' :: fixDigits b ++ '-' :: c) =
        a ++ '-' :: fixDigits b ++ '-' :: c :=
      stripSet_eq_self _ _ hzhead hzlast
    have hsplitz : splitL '-' (a ++ '-' :: fixDigits b ++ '-' :: c) = [a, fixDigits b, c] := by
      have hassoc : a ++ '-' :: fixDigits b ++ '-' :: c =
          a ++ '-' :: (fixDigits b ++ '-' :: c) := by
        simp
      rw [hassoc, splitL_append_sep '-' a _ hna,
        splitL_append_sep '-' (fixDigits b) c (fixDigits_no_dash b hnb),
        splitL_no_sep '-' c hnc]
    rw [hres]
    simp only [checkNameL]
    rw [hstrip, hsplitz]
    simp [List.getD, fixDigits_idem]
  · have h1 : checkNameL l = stripSet ['-'] l := by
      simp only [checkNameL]
      rw [if_neg h3]
    rw [h1]
    simp only [checkNameL]
    rw [stripSet_idem]
    rw [if_neg h3]

/-- C9: `check_name` is idempotent: a second application changes nothing —
the corrected middle segment contains no further `D`/`O`/`S`, the rejoined
name has no leading or trailing `'-'` to strip, and it resplits into the
same three segments. -/
theorem check_name_idem (s : String) : check_name (check_name s) = check_name s := by
  unfold check_name
  rw [List.toList_asString, checkNameL_idem]

end AzurLane


